import Mathlib

/-!
Shallow embedding of the `poster` package's C++ batch-processing harness
(`src/postal.cpp` and the exported entry points), which wraps the opaque
libpostal engine behind vectorized normalize / parse / get-field / set-field
operations with R missing-value (`NA`) semantics.

Modelling conventions:
* An R `CharacterVector` entry is `Option String`: `none` is `NA_STRING`.
* The opaque engine is a pair of black-box functions: an expander
  (`expand_address`) returning a list of candidate expansions, and a parser
  (`parse_address`) returning a list of `(label, value)` component pairs.
  The engine option handles (`normalize_options_t`, `address_parser_options_t`)
  carry no observable state at this layer and are folded into the functions.
* Exceptions (`Rcpp::stop`, `std::out_of_range` from `std::string::replace`,
  and an out-of-bounds `CharacterVector` projection) are modelled with
  `Except String`: a thrown exception aborts the batch with no partial output.
* Engine invocations are made observable: each per-element step returns its
  result together with the number of engine calls it performed, and batch
  runners accumulate the count of calls made before returning or throwing.
* The C++ batch loops in `parse_addr`, `get_elements` and `set_elements`
  declare `unsigned int i` with no initializer (reading it is undefined
  behavior in C++); the sibling loop in `address_normalise` writes `i = 0`,
  and the loops are modelled with that evident intent, iterating the batch
  from index 0. The `Rcpp::checkUserInterrupt()` checkpoint every 10000
  elements is a host-cancellation hook with no effect on the values computed
  and is not modelled.
-/

namespace Poster

/-- The opaque expansion engine: `expand_address` as a black box, returning
the candidate expansion list for one input string. -/
def Expander : Type := String → List String

/-- The opaque parsing engine: `parse_address` as a black box, returning the
`(label, component)` pairs for one input string. -/
def Engine : Type := String → List (String × String)

/-- Model of `poster_internal::isna` (the null-safe string adapter `toOptional`):
the empty string becomes `NA_STRING` (`none`), any other string is itself. -/
def isna (x : String) : Option String :=
  if x = "" then none else some x

/-- The ten recognized field labels, in the fixed slot order of
`parse_single`'s output vector. -/
def fieldLabels : List String :=
  ["house", "house_number", "road", "suburb", "city_district",
   "city", "state_district", "state", "postal_code", "country"]

/-- One `if` statement of the component loop in
`poster_internal::parse_single`: when the pair's label equals `lbl`, slot
`idx` of the output vector is overwritten with `isna(component)`. -/
def setLabel (lbl : String) (idx : Nat) (p : String × String)
    (output : List (Option String)) : List (Option String) :=
  if p.1 = lbl then output.set idx (isna p.2) else output

/-- One iteration of the component loop in `poster_internal::parse_single`:
the ten successive (non-exclusive) `if` statements that compare the pair's
label against each known field name, applied in source order. -/
def applyPair (output : List (Option String)) (p : String × String) :
    List (Option String) :=
  setLabel "country" 9 p
    (setLabel "postal_code" 8 p
      (setLabel "state" 7 p
        (setLabel "state_district" 6 p
          (setLabel "city" 5 p
            (setLabel "city_district" 4 p
              (setLabel "suburb" 3 p
                (setLabel "road" 2 p
                  (setLabel "house_number" 1 p
                    (setLabel "house" 0 p output)))))))))

/-- Model of `poster_internal::parse_single`: a 10-slot vector initialized entirely to
`NA_STRING`, populated by folding the engine's component pairs through the
label-dispatch loop. Exactly one engine (`parse_address`) call is made. -/
def parse_single (eng : Engine) (x : String) : List (Option String) :=
  (eng x).foldl applyPair (List.replicate 10 none)

/-- The per-element body of `poster_internal::address_normalise`, returning
the output entry and the number of engine calls made for that element:
`NA` passes through with no engine call; otherwise `expand_address` is called
once and the first expansion is taken, falling back to the original string
when there are zero expansions. -/
def normalise_step (exp : Expander) (a : Option String) : Option String × Nat :=
  match a with
  | none => (none, 0)
  | some s =>
    match exp s with
    | [] => (some s, 1)
    | e :: _ => (some e, 1)

/-- Model of `poster_internal::address_normalise`: the batch map of `normalise_step`
(output values). -/
def address_normalise (exp : Expander) (addresses : List (Option String)) :
    List (Option String) :=
  addresses.map (fun a => (normalise_step exp a).1)

/-- Engine calls attributed to each element of an `address_normalise` batch. -/
def address_normalise_calls (exp : Expander) (addresses : List (Option String)) :
    List Nat :=
  addresses.map (fun a => (normalise_step exp a).2)

/-- The per-element body of `poster_internal::parse_addr`: an `NA` element
leaves all ten pre-initialized `NA` column entries untouched with no engine
call; otherwise `parse_single` scatters its 10 slots into the columns. -/
def parse_step (eng : Engine) (a : Option String) :
    List (Option String) × Nat :=
  match a with
  | none => (List.replicate 10 none, 0)
  | some s => (parse_single eng s, 1)

/-- Model of `poster_internal::parse_addr`: the returned `DataFrame`, modelled as the
ordered list of (column name, column) pairs produced by `DataFrame::create`. -/
def parse_addr (eng : Engine) (addresses : List (Option String)) :
    List (String × List (Option String)) :=
  (List.range 10).map (fun k =>
    (fieldLabels.getD k "",
     addresses.map (fun a => (parse_step eng a).1.getD k none)))

/-- Engine calls attributed to each element of a `parse_addr` batch. -/
def parse_addr_calls (eng : Engine) (addresses : List (Option String)) :
    List Nat :=
  addresses.map (fun a => (parse_step eng a).2)

/-- Exception message for an out-of-bounds projection `holding[element]` of
the 10-slot parse vector (the unchecked `CharacterVector` index access). -/
def slotOutOfBoundsMsg : String := "CharacterVector index out of bounds"

/-- Exception message of `std::out_of_range` thrown by `std::string::replace`
when `std::string::find` returned `npos`. -/
def replaceOutOfRangeMsg : String := "basic_string::replace: pos > size"

/-- The `Rcpp::stop` message of `set_elements` (verbatim from the source). -/
def lengthMismatchMsg : String :=
  "The set of new values must be the same length as the addresses, or of length 1"

/-- Projection `v[element]` of a `CharacterVector` at a C++ `int` index,
modelled as failing outside the bounds (the source performs no validation). -/
def getSlot (xs : List (Option String)) (element : Int) :
    Except String (Option String) :=
  if 0 ≤ element ∧ element < (xs.length : Int) then
    .ok (xs.getD element.toNat none)
  else
    .error slotOutOfBoundsMsg

/-- The per-element body of `poster_internal::get_elements`: `NA` in, `NA`
out with no engine call; otherwise one `parse_single` call projected at
`element`. -/
def get_step (eng : Engine) (element : Int) (a : Option String) :
    Except String (Option String) × Nat :=
  match a with
  | none => (.ok none, 0)
  | some s =>
    match getSlot (parse_single eng s) element with
    | .error e => (.error e, 1)
    | .ok v => (.ok v, 1)

/-- Runs a per-element step over a batch in input order. A thrown exception
aborts the batch, discarding the partial output; the engine-call counter
accumulates the calls made up to and including the aborting element. -/
def runBatch (step : α → Except String β × Nat) :
    List α → Except String (List β) × Nat
  | [] => (.ok [], 0)
  | a :: rest =>
    match step a with
    | (.error e, c) => (.error e, c)
    | (.ok b, c) =>
      match runBatch step rest with
      | (.error e, n) => (.error e, c + n)
      | (.ok bs, n) => (.ok (b :: bs), c + n)

/-- Model of `poster_internal::get_elements`: the batch run of `get_step`. -/
def get_elements (eng : Engine) (addresses : List (Option String))
    (element : Int) : Except String (List (Option String)) × Nat :=
  runBatch (get_step eng element) addresses

/-- Model of `std::string::find` on character lists: the index of the first occurrence
of `sub` in `s`, or `none` for `npos`. -/
def findSub (sub : List Char) : List Char → Option Nat
  | [] => if sub.isPrefixOf ([] : List Char) then some 0 else none
  | c :: t =>
    if sub.isPrefixOf (c :: t) then some 0
    else (findSub sub t).map (· + 1)

/-- Model of `std::string::replace(pos, len, repl)` at a valid position: the `len`
characters starting at `pos` are replaced by `repl` (a count running past the
end is clamped, as in C++). -/
def replaceAt (s : List Char) (pos len : Nat) (repl : List Char) : List Char :=
  s.take pos ++ repl ++ s.drop (pos + len)

/-- The per-element body of both loops of `poster_internal::set_elements`:
`NA` address propagates `NA`; `NA` replacement (reachable only in the
position-wise pairing) returns the address unchanged; otherwise the address
is parsed once, an `NA` value in the requested slot returns the address
unchanged, and a present slot value is located with `find` in the raw address
text and replaced — `find` failing means `std::string::replace` is called at
`npos` and throws `std::out_of_range`. -/
def set_step (eng : Engine) (element : Int) (a v : Option String) :
    Except String (Option String) × Nat :=
  match a with
  | none => (.ok none, 0)
  | some addr =>
    match v with
    | none => (.ok (some addr), 0)
    | some repl =>
      match getSlot (parse_single eng addr) element with
      | .error e => (.error e, 1)
      | .ok none => (.ok (some addr), 1)
      | .ok (some fieldVal) =>
        match findSub fieldVal.data addr.data with
        | none => (.error replaceOutOfRangeMsg, 1)
        | some pos =>
          (.ok (some (String.mk
            (replaceAt addr.data pos fieldVal.data.length repl.data))), 1)

/-- Model of `poster_internal::set_elements`: a single replacement value broadcasts
over the batch (an `NA` single value short-circuits, returning the input
batch with no engine calls); a replacement vector of matching length pairs
position-wise; any other length raises the `Rcpp::stop` length-mismatch
error before any element is processed. -/
def set_elements (eng : Engine) (addresses new_value : List (Option String))
    (element : Int) : Except String (List (Option String)) × Nat :=
  match new_value with
  | [v] =>
    if v = none then
      (.ok addresses, 0)
    else
      runBatch (fun a => set_step eng element a v) addresses
  | _ =>
    if new_value.length = addresses.length then
      runBatch (fun p => set_step eng element p.1 p.2)
        (addresses.zip new_value)
    else
      (.error lengthMismatchMsg, 0)

/-- The `setup` error message (verbatim from the source). -/
def setupErrMsg : String := "Libbpostal setup failed"

/-- The exported `setup()` entry point: the three engine subsystem
initializations (`libpostal_setup`, `libpostal_setup_language_classifier`
and the address-grammar one), each modelled by the boolean success value it
reports, combined exactly as the source's short-circuited condition; failure
of the combined condition throws, otherwise the call returns normally. -/
def setup (coreOk classifierOk grammarOk : Bool) : Except String Unit :=
  if !coreOk || !classifierOk || !grammarOk then
    .error setupErrMsg
  else
    .ok ()


/-- A guarded slot write leaves every other slot unchanged. -/
theorem setLabel_getElem?_ne (lbl : String) (idx : Nat) (p : String × String)
    (l : List (Option String)) (j : Nat) (h : idx ≠ j) :
    (setLabel lbl idx p l)[j]? = l[j]? := by
  unfold setLabel
  split
  · exact List.getElem?_set_ne h
  · rfl

/-- A guarded slot write at its own slot: overwritten exactly when the label
matches. -/
theorem setLabel_getElem?_self (lbl : String) (idx : Nat) (p : String × String)
    (l : List (Option String)) :
    (setLabel lbl idx p l)[idx]? =
      if p.1 = lbl then l[idx]?.map (fun _ => isna p.2) else l[idx]? := by
  unfold setLabel
  split
  · rw [List.getElem?_set_self']
    rfl
  · rfl

/-- A guarded slot write preserves the vector length. -/
theorem setLabel_length (lbl : String) (idx : Nat) (p : String × String)
    (l : List (Option String)) : (setLabel lbl idx p l).length = l.length := by
  unfold setLabel
  split <;> simp

/-- Effect of one component pair on slot `k`: the slot is overwritten with
`isna` of the value exactly when the pair's label is the `k`-th field name. -/
theorem applyPair_getElem? (l : List (Option String)) (p : String × String)
    (k : Nat) (hk : k < 10) :
    (applyPair l p)[k]? =
      if p.1 = fieldLabels.getD k "" then l[k]?.map (fun _ => isna p.2)
      else l[k]? := by
  interval_cases k <;>
  · simp only [applyPair]
    repeat rw [setLabel_getElem?_ne _ _ _ _ _ (by decide)]
    rw [setLabel_getElem?_self]
    repeat rw [setLabel_getElem?_ne _ _ _ _ _ (by decide)]
    split
    · rename_i h
      split
      · rfl
      · rename_i h2
        exact absurd (h.trans rfl) h2
    · rename_i h
      split
      · rename_i h2
        exact absurd (h2.trans rfl) h
      · rfl

/-- One component pair preserves the vector length. -/
theorem applyPair_length (l : List (Option String)) (p : String × String) :
    (applyPair l p).length = l.length := by
  simp only [applyPair, setLabel_length]

/-- The component fold preserves the vector length. -/
theorem foldl_applyPair_length (ps : List (String × String))
    (l : List (Option String)) : (ps.foldl applyPair l).length = l.length := by
  induction ps generalizing l with
  | nil => rfl
  | cons p ps ih => rw [List.foldl_cons, ih, applyPair_length]

/-- Lemma: `parse_single` always returns a 10-slot vector. -/
theorem parse_single_length (eng : Engine) (x : String) :
    (parse_single eng x).length = 10 := by
  unfold parse_single
  rw [foldl_applyPair_length]
  rfl

/-- Characterization of `parse_single`: slot `k` holds `isna` of the value of
the last engine pair labelled with the `k`-th field name, and is absent when
no pair carries that label. -/
theorem parse_single_getElem? (eng : Engine) (x : String) (k : Nat)
    (hk : k < 10) :
    (parse_single eng x)[k]? =
      some (match ((eng x).filter
              (fun p => p.1 = fieldLabels.getD k "")).getLast? with
            | none => none
            | some p => isna p.2) := by
  unfold parse_single
  induction (eng x) using List.reverseRecOn with
  | nil =>
    rw [List.foldl_nil, List.getElem?_replicate_of_lt hk]
    rfl
  | append_singleton ps p ih =>
    rw [List.foldl_append, List.foldl_cons, List.foldl_nil,
      applyPair_getElem? _ _ _ hk]
    by_cases h : p.1 = fieldLabels.getD k ""
    · have hfilt : List.filter
          (fun q => decide (q.1 = fieldLabels.getD k "")) [p] = [p] := by
        simp only [List.filter, decide_eq_true h]
      rw [if_pos h, ih, List.filter_append, hfilt, List.getLast?_concat]
      rfl
    · have hfilt : List.filter
          (fun q => decide (q.1 = fieldLabels.getD k "")) [p] = [] := by
        simp only [List.filter, decide_eq_false h]
      rw [if_neg h, ih, List.filter_append, hfilt, List.append_nil]



/-- Unfolding equation of `runBatch` on a non-empty batch. -/
theorem runBatch_cons {α β : Type} (step : α → Except String β × Nat)
    (a : α) (rest : List α) :
    runBatch step (a :: rest) =
      match step a with
      | (.error e, c) => (.error e, c)
      | (.ok b, c) =>
        match runBatch step rest with
        | (.error e, n) => (.error e, c + n)
        | (.ok bs, n) => (.ok (b :: bs), c + n) := rfl

/-- A successful batch run has one output per input. -/
theorem runBatch_ok_length {α β : Type} (step : α → Except String β × Nat)
    (l : List α) (out : List β) (n : Nat)
    (h : runBatch step l = (.ok out, n)) : out.length = l.length := by
  induction l generalizing out n with
  | nil =>
    simp only [runBatch] at h
    cases h
    rfl
  | cons a rest ih =>
    rw [runBatch_cons] at h
    rcases hsx : step a with ⟨r, c⟩
    rw [hsx] at h
    cases r with
    | error e => simp at h
    | ok b =>
      rcases hrr : runBatch step rest with ⟨rr, m⟩
      rw [hrr] at h
      cases rr with
      | error e => simp at h
      | ok bs =>
        simp only [Prod.mk.injEq, Except.ok.injEq] at h
        obtain ⟨h1, h2⟩ := h
        subst h1
        simp [ih bs m hrr]

/-- A successful batch run computes output `i` from input `i` by the step
function (with the call count the step reports for that element). -/
theorem runBatch_ok_getElem? {α β : Type} (step : α → Except String β × Nat)
    (l : List α) (out : List β) (n : Nat)
    (h : runBatch step l = (.ok out, n)) (i : Nat) (a : α)
    (ha : l[i]? = some a) :
    ∃ b c, step a = (.ok b, c) ∧ out[i]? = some b := by
  induction l generalizing out n i with
  | nil => simp at ha
  | cons x rest ih =>
    rw [runBatch_cons] at h
    rcases hsx : step x with ⟨r, c⟩
    rw [hsx] at h
    cases r with
    | error e => simp at h
    | ok b =>
      rcases hrr : runBatch step rest with ⟨rr, m⟩
      rw [hrr] at h
      cases rr with
      | error e => simp at h
      | ok bs =>
        simp only [Prod.mk.injEq, Except.ok.injEq] at h
        obtain ⟨h1, h2⟩ := h
        subst h1
        match i with
        | 0 =>
          simp only [List.getElem?_cons_zero] at ha
          cases ha
          exact ⟨b, c, hsx, by simp⟩
        | j + 1 =>
          simp only [List.getElem?_cons_succ] at ha ⊢
          exact ih bs m hrr j ha

/-- A failing batch run's exception was thrown by the step of some element. -/
theorem runBatch_error_exists {α β : Type} (step : α → Except String β × Nat)
    (l : List α) (e : String)
    (h : (runBatch step l).1 = .error e) :
    ∃ a ∈ l, ∃ c, step a = (.error e, c) := by
  induction l with
  | nil => simp [runBatch] at h
  | cons x rest ih =>
    rw [runBatch_cons] at h
    rcases hsx : step x with ⟨r, c⟩
    rw [hsx] at h
    cases r with
    | error e' =>
      simp only [Except.error.injEq] at h
      subst h
      exact ⟨x, List.mem_cons_self x rest, c, hsx⟩
    | ok b =>
      rcases hrr : runBatch step rest with ⟨rr, m⟩
      rw [hrr] at h
      cases rr with
      | error e' =>
        simp only [Except.error.injEq] at h
        subst h
        obtain ⟨a, hmem, c', hc⟩ := ih (by rw [hrr])
        exact ⟨a, List.mem_cons_of_mem x hmem, c', hc⟩
      | ok bs => simp at h



/-- C1: for every batch and every non-missing element `i`, `normalize`'s
output at `i` is the first expansion the engine returns for that element,
and equals the original string verbatim when the engine returns zero
expansions. -/
theorem c1_normalise_first_expansion (exp : Expander)
    (addresses : List (Option String)) (i : Nat) (s : String)
    (h : addresses[i]? = some (some s)) :
    (exp s = [] → (address_normalise exp addresses)[i]? = some (some s)) ∧
    (∀ e rest, exp s = e :: rest →
      (address_normalise exp addresses)[i]? = some (some e)) := by
  constructor
  · intro he
    simp [address_normalise, h, normalise_step, he]
  · intro e rest he
    simp [address_normalise, h, normalise_step, he]

/-- Witness for C1 at a concrete batch: an engine with one expansion, and an
engine with none (identity fallback). -/
theorem c1_normalise_first_expansion_witness :
    (([some "fourty seven love lane pinner", none] :
        List (Option String))[0]? = some (some "fourty seven love lane pinner")) ∧
    (address_normalise (fun _ => ["47 love lane pinner"])
      [some "fourty seven love lane pinner", none])[0]? =
        some (some "47 love lane pinner") ∧
    (address_normalise (fun _ => [])
      [some "fourty seven love lane pinner", none])[0]? =
        some (some "fourty seven love lane pinner") :=
  ⟨rfl,
   (c1_normalise_first_expansion (fun _ => ["47 love lane pinner"])
      [some "fourty seven love lane pinner", none] 0
      "fourty seven love lane pinner" rfl).2 "47 love lane pinner" [] rfl,
   (c1_normalise_first_expansion (fun _ => [])
      [some "fourty seven love lane pinner", none] 0
      "fourty seven love lane pinner" rfl).1 rfl⟩

/-- C5: (code behavior at the spec's gap) when the parsed field value is not
found verbatim in the original address text, `set_elements` is not a no-op:
`std::string::find` returns `npos` and `std::string::replace` throws
`std::out_of_range`, aborting the batch. Evaluated at a concrete input: the
engine attributes the lower-cased road "main st" to an address whose raw
text spells "Main St". -/
theorem c5_substring_not_found_throws :
    set_elements (fun _ => [("road", "main st")])
      [some "123 Main St"] [some "Broadway"] 2 =
      (.error replaceOutOfRangeMsg, 1) := rfl

/-- C7: a single `NA` replacement value short-circuits `set_elements`,
returning the input batch itself with zero engine invocations. -/
theorem c7_broadcast_na_short_circuit (eng : Engine)
    (addresses : List (Option String)) (element : Int) :
    set_elements eng addresses [none] element = (.ok addresses, 0) := rfl

/-- C8: `setup` raises exactly when at least one of the three subsystem
initializations reports failure, and a normal return means all three
succeeded. -/
theorem c8_setup_all_or_nothing (coreOk classifierOk grammarOk : Bool) :
    (setup coreOk classifierOk grammarOk = .error setupErrMsg ↔
      (coreOk = false ∨ classifierOk = false ∨ grammarOk = false)) ∧
    (setup coreOk classifierOk grammarOk = .ok () →
      coreOk = true ∧ classifierOk = true ∧ grammarOk = true) := by
  cases coreOk <;> cases classifierOk <;> cases grammarOk <;>
    simp [setup]

/-- Witness for C8: a failing classifier initialization raises, and a fully
successful initialization returns normally. -/
theorem c8_setup_all_or_nothing_witness :
    (setup true false true = .error setupErrMsg) ∧
    (true = true ∧ true = true ∧ true = true) :=
  ⟨(c8_setup_all_or_nothing true false true).1.mpr (Or.inr (Or.inl rfl)),
   (c8_setup_all_or_nothing true true true).2 rfl⟩

/-- C9: the ten columns of `parse_addr` appear in the fixed field order for
every engine and every batch. -/
theorem c9_column_order (eng : Engine) (addresses : List (Option String)) :
    (parse_addr eng addresses).map Prod.fst = fieldLabels := rfl



/-- C2: `parse_single` returns a 10-slot record; each slot holds
`toOptional` of the value of the last engine pair whose label exactly
matches that slot's field name, and is absent when no pair carries the
label (so unrecognized labels are dropped and duplicate labels resolve
last-write-wins over an initially all-absent record). -/
theorem c2_parse_single_contract (eng : Engine) (x : String) :
    (parse_single eng x).length = 10 ∧
    (∀ k : Nat, k < 10 →
      (parse_single eng x)[k]? =
        some (match ((eng x).filter
                (fun p => p.1 = fieldLabels.getD k "")).getLast? with
              | none => none
              | some p => isna p.2)) :=
  ⟨parse_single_length eng x, fun k hk => parse_single_getElem? eng x k hk⟩

/-- Witness for C2 at a concrete engine output containing a duplicate label
(last wins on `road`), an unrecognized label (dropped), and an empty value
(absent via `toOptional`). -/
theorem c2_parse_single_contract_witness :
    (parse_single (fun _ =>
        [("road", "franklin ave"), ("bogus_label", "q"),
         ("road", "crown heights"), ("city", "")]) "x")[2]? =
      some (match (((fun _ =>
        [("road", "franklin ave"), ("bogus_label", "q"),
         ("road", "crown heights"), ("city", "")] : Engine) "x").filter
          (fun p => p.1 = fieldLabels.getD 2 "")).getLast? with
        | none => none
        | some p => isna p.2) :=
  (c2_parse_single_contract (fun _ =>
      [("road", "franklin ave"), ("bogus_label", "q"),
       ("road", "crown heights"), ("city", "")]) "x").2 2 (by decide)



/-- Every entry of an all-`NA` 10-slot row is `NA`, at any index. -/
theorem replicate_ten_getD (k : Nat) :
    (List.replicate 10 (none : Option String)).getD k none = none := by
  rw [List.getD_eq_getElem?_getD, List.getElem?_replicate]
  split <;> rfl

/-- Unfolding equation of `set_elements` for an empty replacement vector. -/
theorem set_elements_nil (eng : Engine) (addresses : List (Option String))
    (element : Int) :
    set_elements eng addresses [] element =
      if ([] : List (Option String)).length = addresses.length then
        runBatch (fun p => set_step eng element p.1 p.2)
          (addresses.zip ([] : List (Option String)))
      else (.error lengthMismatchMsg, 0) := rfl

/-- Unfolding equation of `set_elements` for a singleton replacement. -/
theorem set_elements_singleton (eng : Engine)
    (addresses : List (Option String)) (v : Option String) (element : Int) :
    set_elements eng addresses [v] element =
      if v = none then (.ok addresses, 0)
      else runBatch (fun a => set_step eng element a v) addresses := rfl

/-- Unfolding equation of `set_elements` for two or more replacements. -/
theorem set_elements_cons2 (eng : Engine) (addresses : List (Option String))
    (v v2 : Option String) (rest : List (Option String)) (element : Int) :
    set_elements eng addresses (v :: v2 :: rest) element =
      if (v :: v2 :: rest).length = addresses.length then
        runBatch (fun p => set_step eng element p.1 p.2)
          (addresses.zip (v :: v2 :: rest))
      else (.error lengthMismatchMsg, 0) := rfl

/-- C3: a missing input element propagates `NA` through every batch
operation — the normalize output, all ten parse columns, and the get/set
field outputs at that position are `NA` — and the per-element engine-call
count of a missing element is zero in every operation. -/
theorem c3_missing_passthrough (exp : Expander) (eng : Engine)
    (addresses new_value : List (Option String)) (element : Int) (i : Nat)
    (h : addresses[i]? = some none) :
    (address_normalise exp addresses)[i]? = some none ∧
    (address_normalise_calls exp addresses)[i]? = some 0 ∧
    (∀ name col, (name, col) ∈ parse_addr eng addresses →
      col[i]? = some none) ∧
    (parse_addr_calls eng addresses)[i]? = some 0 ∧
    get_step eng element none = (.ok none, 0) ∧
    (∀ out n, get_elements eng addresses element = (.ok out, n) →
      out[i]? = some none) ∧
    (∀ v, set_step eng element none v = (.ok none, 0)) ∧
    (∀ out n, set_elements eng addresses new_value element = (.ok out, n) →
      out[i]? = some none) := by
  have hi : i < addresses.length := by
    by_contra hge
    rw [List.getElem?_eq_none (Nat.le_of_not_lt hge)] at h
    cases h
  refine ⟨?_, ?_, ?_, ?_, rfl, ?_, fun v => rfl, ?_⟩
  · simp [address_normalise, h, normalise_step]
  · simp [address_normalise_calls, h, normalise_step]
  · intro name col hmem
    simp only [parse_addr, List.mem_map] at hmem
    obtain ⟨k, _, hk⟩ := hmem
    have hcol : col = addresses.map (fun a => (parse_step eng a).1.getD k none) :=
      (congrArg Prod.snd hk).symm
    subst hcol
    rw [List.getElem?_map, h, Option.map_some']
    rw [show parse_step eng none = (List.replicate 10 none, 0) from rfl,
      replicate_ten_getD]
  · simp [parse_addr_calls, h, parse_step]
  · intro out n hrun
    obtain ⟨b, c, hstep, hout⟩ :=
      runBatch_ok_getElem? (get_step eng element) addresses out n hrun i none h
    have hb : ((Except.ok b : Except String (Option String)), c) =
        ((Except.ok none : Except String (Option String)), 0) := by
      rw [← hstep]; rfl
    cases hb
    exact hout
  · intro out n hset
    rcases new_value with _ | ⟨v, _ | ⟨v2, rest⟩⟩
    · rw [set_elements_nil] at hset
      split at hset
      · rename_i hlen
        have h0 : addresses.length = 0 := by simpa using hlen.symm
        omega
      · cases hset
    · rw [set_elements_singleton] at hset
      split at hset
      · simp only [Prod.mk.injEq, Except.ok.injEq] at hset
        obtain ⟨h1, _⟩ := hset
        subst h1
        exact h
      · obtain ⟨b, c, hstep, hout⟩ :=
          runBatch_ok_getElem? (fun a => set_step eng element a v) addresses
            out n hset i none h
        have hb : ((Except.ok b : Except String (Option String)), c) =
            ((Except.ok none : Except String (Option String)), 0) := by
          rw [← hstep]; rfl
        cases hb
        exact hout
    · rw [set_elements_cons2] at hset
      split at hset
      · rename_i hlen
        have hi2 : i < (v :: v2 :: rest).length := by omega
        obtain ⟨w, hw⟩ : ∃ w, (v :: v2 :: rest)[i]? = some w :=
          ⟨_, List.getElem?_eq_getElem hi2⟩
        obtain ⟨b, c, hstep, hout⟩ :=
          runBatch_ok_getElem? (fun p => set_step eng element p.1 p.2)
            (addresses.zip (v :: v2 :: rest)) out n hset i (none, w) (by
              rw [List.getElem?_zip_eq_some]
              exact ⟨h, hw⟩)
        have hb : ((Except.ok b : Except String (Option String)), c) =
            ((Except.ok none : Except String (Option String)), 0) := by
          rw [← hstep]; rfl
        cases hb
        exact hout
      · cases hset



/-- Witness for C3 at a concrete batch whose second element is missing:
every operation's output at that position is `NA` with zero engine calls. -/
theorem c3_missing_passthrough_witness :
    (address_normalise (fun _ => ["norm"]) [some "123 r st", none])[1]? =
      some none ∧
    (address_normalise_calls (fun _ => ["norm"]) [some "123 r st", none])[1]? =
      some 0 ∧
    (([none, none] : List (Option String)))[1]? = some none ∧
    (parse_addr_calls (fun _ => [("road", "r")]) [some "123 r st", none])[1]? =
      some 0 ∧
    get_step (fun _ => [("road", "r")]) 2 none = (.ok none, 0) ∧
    (([some "r", none] : List (Option String)))[1]? = some none ∧
    set_step (fun _ => [("road", "r")]) 2 none (some "z") = (.ok none, 0) ∧
    (([some "123 r st", none] : List (Option String)))[1]? = some none := by
  have H := c3_missing_passthrough (fun _ => ["norm"])
    (fun _ => [("road", "r")]) [some "123 r st", none] [none] 2 1 rfl
  exact ⟨H.1, H.2.1, H.2.2.1 "house" [none, none] (by decide),
    H.2.2.2.1, H.2.2.2.2.1,
    H.2.2.2.2.2.1 [some "r", none] 1 rfl,
    H.2.2.2.2.2.2.1 (some "z"),
    H.2.2.2.2.2.2.2 [some "123 r st", none] 0 rfl⟩

/-- C4: every batch operation produces output of the input's length (each
of the ten parse columns separately), and output position `i` corresponds to
input position `i`: the normalize output and every parse column at `i` are
the per-element step of input `i`, and a successful get/set batch output at
`i` is the per-element step of input `i` (paired with the broadcast value or
with replacement `i`, after the `NA` short-circuit which returns the input
batch itself). -/
theorem c4_length_preservation (exp : Expander) (eng : Engine)
    (addresses new_value : List (Option String)) (element : Int) :
    (address_normalise exp addresses).length = addresses.length ∧
    (∀ i : Nat, (address_normalise exp addresses)[i]? =
      (addresses[i]?).map (fun a => (normalise_step exp a).1)) ∧
    (∀ name col, (name, col) ∈ parse_addr eng addresses →
      col.length = addresses.length ∧
      ∃ k : Nat, k < 10 ∧ name = fieldLabels.getD k "" ∧
        ∀ i : Nat, col[i]? = (addresses[i]?).map
          (fun a => (parse_step eng a).1.getD k none)) ∧
    (∀ (out : List (Option String)) (n : Nat),
      get_elements eng addresses element = (.ok out, n) →
      out.length = addresses.length ∧
      ∀ (i : Nat) (a : Option String), addresses[i]? = some a →
        ∃ b c, get_step eng element a = (.ok b, c) ∧ out[i]? = some b) ∧
    (∀ (out : List (Option String)) (n : Nat),
      set_elements eng addresses new_value element = (.ok out, n) →
      out.length = addresses.length ∧
      ((∃ v, new_value = [v] ∧ v = none ∧ out = addresses) ∨
       (∃ v, new_value = [v] ∧ v ≠ none ∧
         ∀ (i : Nat) (a : Option String), addresses[i]? = some a →
           ∃ b c, set_step eng element a v = (.ok b, c) ∧
             out[i]? = some b) ∨
       (new_value.length = addresses.length ∧
         ∀ (i : Nat) (a w : Option String), addresses[i]? = some a →
           new_value[i]? = some w →
           ∃ b c, set_step eng element a w = (.ok b, c) ∧
             out[i]? = some b))) := by
  refine ⟨by simp [address_normalise], ?_, ?_, ?_, ?_⟩
  · intro i
    simp [address_normalise]
  · intro name col hmem
    simp only [parse_addr, List.mem_map] at hmem
    obtain ⟨k, hkmem, hk⟩ := hmem
    have hkr : k < 10 := List.mem_range.mp hkmem
    have hname : name = fieldLabels.getD k "" := (congrArg Prod.fst hk).symm
    have hcol : col = addresses.map (fun a => (parse_step eng a).1.getD k none) :=
      (congrArg Prod.snd hk).symm
    subst hcol
    refine ⟨by simp, k, hkr, hname, ?_⟩
    intro i
    simp
  · intro out n hrun
    refine ⟨runBatch_ok_length _ _ _ _ hrun, ?_⟩
    intro i a ha
    exact runBatch_ok_getElem? _ _ _ _ hrun i a ha
  · intro out n hset
    rcases new_value with _ | ⟨v, _ | ⟨v2, rest⟩⟩
    · rw [set_elements_nil] at hset
      split at hset
      · rename_i hlen
        have hL := runBatch_ok_length _ _ _ _ hset
        simp only [List.length_zip] at hL
        have hlen0 : addresses.length = 0 := by simpa using hlen.symm
        refine ⟨by omega, Or.inr (Or.inr ⟨hlen, ?_⟩)⟩
        intro i a w ha hw
        exfalso
        have hi : i < addresses.length := by
          by_contra hge
          rw [List.getElem?_eq_none (Nat.le_of_not_lt hge)] at ha
          cases ha
        omega
      · cases hset
    · rw [set_elements_singleton] at hset
      split at hset
      · rename_i hv
        simp only [Prod.mk.injEq, Except.ok.injEq] at hset
        obtain ⟨h1, _⟩ := hset
        subst h1
        exact ⟨rfl, Or.inl ⟨v, rfl, hv, rfl⟩⟩
      · rename_i hv
        refine ⟨runBatch_ok_length _ _ _ _ hset,
          Or.inr (Or.inl ⟨v, rfl, hv, ?_⟩)⟩
        intro i a ha
        exact runBatch_ok_getElem? (fun a => set_step eng element a v)
          addresses out n hset i a ha
    · rw [set_elements_cons2] at hset
      split at hset
      · rename_i hlen
        have hL := runBatch_ok_length _ _ _ _ hset
        simp only [List.length_zip] at hL
        refine ⟨by omega, Or.inr (Or.inr ⟨hlen, ?_⟩)⟩
        intro i a w ha hw
        exact runBatch_ok_getElem? (fun p => set_step eng element p.1 p.2)
          (addresses.zip (v :: v2 :: rest)) out n hset i (a, w)
          (List.getElem?_zip_eq_some.mpr ⟨ha, hw⟩)
      · cases hset

/-- Witness for C4 at a concrete two-element batch with one missing entry:
lengths of all outputs, plus the positional correspondence of the get-field
output at position 0. -/
theorem c4_length_preservation_witness :
    (address_normalise (fun _ => ["norm"]) [some "123 r st", none]).length = 2 ∧
    (([none, none] : List (Option String)).length = 2) ∧
    (([some "r", none] : List (Option String)).length = 2) ∧
    (([some "123 z st", none] : List (Option String)).length = 2) ∧
    (∃ b c, get_step (fun _ => [("road", "r")]) 2 (some "123 r st") =
      (.ok b, c) ∧ (([some "r", none] : List (Option String)))[0]? = some b) := by
  have H := c4_length_preservation (fun _ => ["norm"])
    (fun _ => [("road", "r")]) [some "123 r st", none] [some "z"] 2
  exact ⟨H.1, (H.2.2.1 "house" [none, none] (by decide)).1,
    (H.2.2.2.1 [some "r", none] 1 rfl).1,
    (H.2.2.2.2 [some "123 z st", none] 1 rfl).1,
    (H.2.2.2.1 [some "r", none] 1 rfl).2 0 (some "123 r st") rfl⟩

/-- Lemma: `getSlot` fails only with the out-of-bounds message. -/
theorem getSlot_error (xs : List (Option String)) (element : Int) (e : String)
    (h : getSlot xs element = .error e) : e = slotOutOfBoundsMsg := by
  unfold getSlot at h
  split at h
  · cases h
  · cases h
    rfl

/-- In-bounds projection of a parse row always succeeds. -/
theorem getSlot_parse_single_ok (eng : Engine) (x : String) (element : Int)
    (h1 : 0 ≤ element) (h2 : element ≤ 9) :
    getSlot (parse_single eng x) element =
      .ok ((parse_single eng x).getD element.toNat none) := by
  unfold getSlot
  rw [parse_single_length]
  rw [if_pos ⟨h1, by omega⟩]

/-- Unfolding equation of `set_step` on a present address and replacement. -/
theorem set_step_some_some (eng : Engine) (element : Int)
    (addr repl : String) :
    set_step eng element (some addr) (some repl) =
      match getSlot (parse_single eng addr) element with
      | .error e => (.error e, 1)
      | .ok none => (.ok (some addr), 1)
      | .ok (some fieldVal) =>
        match findSub fieldVal.data addr.data with
        | none => (.error replaceOutOfRangeMsg, 1)
        | some pos =>
          (.ok (some (String.mk
            (replaceAt addr.data pos fieldVal.data.length repl.data))), 1) := rfl

/-- Unfolding equation of `get_step` on a present address. -/
theorem get_step_some (eng : Engine) (element : Int) (s : String) :
    get_step eng element (some s) =
      match getSlot (parse_single eng s) element with
      | .error e => (.error e, 1)
      | .ok v => (.ok v, 1) := rfl

/-- Lemma: `set_step` throws only the projection or replace exceptions. -/
theorem set_step_error_cases (eng : Engine) (element : Int)
    (a v : Option String) (e : String) (c : Nat)
    (h : set_step eng element a v = (.error e, c)) :
    e = slotOutOfBoundsMsg ∨ e = replaceOutOfRangeMsg := by
  rcases a with _ | addr
  · simp [set_step] at h
  rcases v with _ | repl
  · simp [set_step] at h
  rw [set_step_some_some] at h
  rcases hs : getSlot (parse_single eng addr) element with e' | sv
  · rw [hs] at h
    simp only [Prod.mk.injEq, Except.error.injEq] at h
    exact Or.inl (h.1 ▸ getSlot_error _ _ _ hs)
  · rw [hs] at h
    rcases sv with _ | fieldVal
    · simp at h
    · dsimp only [] at h
      rcases hf : findSub fieldVal.data addr.data with _ | pos
      · rw [hf] at h
        simp only [Prod.mk.injEq, Except.error.injEq] at h
        exact Or.inr h.1.symm
      · rw [hf] at h
        simp at h

/-- Lemma: `get_step` throws only the projection exception. -/
theorem get_step_error_cases (eng : Engine) (element : Int)
    (a : Option String) (e : String) (c : Nat)
    (h : get_step eng element a = (.error e, c)) :
    e = slotOutOfBoundsMsg := by
  rcases a with _ | s
  · simp [get_step] at h
  rw [get_step_some] at h
  rcases hs : getSlot (parse_single eng s) element with e' | sv
  · rw [hs] at h
    simp only [Prod.mk.injEq, Except.error.injEq] at h
    exact h.1 ▸ getSlot_error _ _ _ hs
  · rw [hs] at h
    simp at h

/-- With an in-bounds field index, `set_step` can only throw the replace
exception. -/
theorem set_step_error_inbounds (eng : Engine) (element : Int)
    (a v : Option String) (e : String) (c : Nat)
    (h1 : 0 ≤ element) (h2 : element ≤ 9)
    (h : set_step eng element a v = (.error e, c)) :
    e = replaceOutOfRangeMsg := by
  rcases set_step_error_cases eng element a v e c h with hoob | hr
  · exfalso
    subst hoob
    rcases a with _ | addr
    · simp [set_step] at h
    rcases v with _ | repl
    · simp [set_step] at h
    rw [set_step_some_some,
      getSlot_parse_single_ok eng addr element h1 h2] at h
    rcases hgd : (parse_single eng addr).getD element.toNat none with _ | fieldVal
    · rw [hgd] at h
      simp at h
    · rw [hgd] at h
      dsimp only [] at h
      rcases hf : findSub fieldVal.data addr.data with _ | pos
      · rw [hf] at h
        simp only [Prod.mk.injEq, Except.error.injEq] at h
        exact absurd h.1 (by decide)
      · rw [hf] at h
        simp at h
  · exact hr

/-- If every step of a batch succeeds, the batch run succeeds. -/
theorem runBatch_ok_of_steps {α β : Type} (step : α → Except String β × Nat)
    (l : List α) (hstep : ∀ a ∈ l, ∃ b c, step a = (.ok b, c)) :
    ∃ out n, runBatch step l = (.ok out, n) := by
  induction l with
  | nil => exact ⟨[], 0, rfl⟩
  | cons x rest ih =>
    obtain ⟨b, c, hb⟩ := hstep x (List.mem_cons_self x rest)
    obtain ⟨out, n, hout⟩ := ih (fun a ha => hstep a (List.mem_cons_of_mem x ha))
    exact ⟨b :: out, c + n, by rw [runBatch_cons, hb, hout]⟩



/-- C6: `set_elements` raises the length-mismatch error exactly when the
replacement count is neither 1 nor the address count, and then it raises
immediately: zero engine calls, no output element produced. -/
theorem c6_length_mismatch_guard (eng : Engine)
    (addresses new_value : List (Option String)) (element : Int) :
    ((set_elements eng addresses new_value element).1 =
        .error lengthMismatchMsg ↔
      (new_value.length ≠ 1 ∧ new_value.length ≠ addresses.length)) ∧
    (new_value.length ≠ 1 → new_value.length ≠ addresses.length →
      set_elements eng addresses new_value element =
        (.error lengthMismatchMsg, 0)) := by
  have hrb1 : ∀ v : Option String,
      (runBatch (fun a => set_step eng element a v) addresses).1 ≠
        .error lengthMismatchMsg := by
    intro v hcontra
    obtain ⟨a, _, c, hc⟩ := runBatch_error_exists _ _ _ hcontra
    rcases set_step_error_cases eng element a v _ c hc with h' | h' <;>
      exact absurd h' (by decide)
  have hrb2 : ∀ nv : List (Option String),
      (runBatch (fun p => set_step eng element p.1 p.2)
        (addresses.zip nv)).1 ≠ .error lengthMismatchMsg := by
    intro nv hcontra
    obtain ⟨a, _, c, hc⟩ := runBatch_error_exists _ _ _ hcontra
    rcases set_step_error_cases eng element a.1 a.2 _ c hc with h' | h' <;>
      exact absurd h' (by decide)
  rcases new_value with _ | ⟨v, _ | ⟨v2, rest⟩⟩
  · rw [set_elements_nil]
    split
    · rename_i hlen
      constructor
      · constructor
        · intro hc
          exact absurd hc (hrb2 [])
        · rintro ⟨_, hne⟩
          exact absurd hlen hne
      · intro _ h2
        exact absurd hlen h2
    · rename_i hlen
      refine ⟨⟨fun _ => ⟨by decide, hlen⟩, fun _ => rfl⟩, fun _ _ => rfl⟩
  · rw [set_elements_singleton]
    constructor
    · constructor
      · split
        · intro hc
          cases hc
        · intro hc
          exact absurd hc (hrb1 v)
      · rintro ⟨h1, _⟩
        simp at h1
    · intro h1 _
      simp at h1
  · rw [set_elements_cons2]
    split
    · rename_i hlen
      constructor
      · constructor
        · intro hc
          exact absurd hc (hrb2 (v :: v2 :: rest))
        · rintro ⟨_, hne⟩
          exact absurd hlen hne
      · intro _ h2
        exact absurd hlen h2
    · rename_i hlen
      refine ⟨⟨fun _ => ⟨by simp, hlen⟩, fun _ => rfl⟩, fun _ _ => rfl⟩

/-- Witness for C6: three replacements against one address raise the
length-mismatch error with no engine calls. -/
theorem c6_length_mismatch_guard_witness :
    set_elements (fun _ => [("road", "r")]) [some "a"]
      [some "x", some "y", some "z"] 2 = (.error lengthMismatchMsg, 0) :=
  (c6_length_mismatch_guard (fun _ => [("road", "r")]) [some "a"]
    [some "x", some "y", some "z"] 2).2 (by decide) (by decide)

/-- C10: the field-index projection of the 10-slot parse row is in bounds
exactly when `0 ≤ element ≤ 9`; under that precondition `get_elements`
always succeeds and `set_elements` can never surface the projection's
out-of-bounds failure (the out-of-range branch is unreachable). -/
theorem c10_field_index_bounds (eng : Engine)
    (addresses new_value : List (Option String)) (element : Int) (x : String) :
    ((0 ≤ element ∧ element ≤ 9) ↔
      ∃ v, getSlot (parse_single eng x) element = .ok v) ∧
    (0 ≤ element → element ≤ 9 →
      ∃ out n, get_elements eng addresses element = (.ok out, n)) ∧
    (0 ≤ element → element ≤ 9 →
      (set_elements eng addresses new_value element).1 ≠
        .error slotOutOfBoundsMsg) := by
  refine ⟨⟨?_, ?_⟩, ?_, ?_⟩
  · rintro ⟨h1, h2⟩
    exact ⟨_, getSlot_parse_single_ok eng x element h1 h2⟩
  · rintro ⟨v, hv⟩
    unfold getSlot at hv
    split at hv
    · rename_i hcond
      rw [parse_single_length] at hcond
      exact ⟨hcond.1, by omega⟩
    · cases hv
  · intro h1 h2
    unfold get_elements
    apply runBatch_ok_of_steps
    intro a _
    rcases a with _ | s
    · exact ⟨none, 0, rfl⟩
    · refine ⟨(parse_single eng s).getD element.toNat none, 1, ?_⟩
      rw [get_step_some, getSlot_parse_single_ok eng s element h1 h2]
  · intro h1 h2 hcontra
    rcases new_value with _ | ⟨v, _ | ⟨v2, rest⟩⟩
    · rw [set_elements_nil] at hcontra
      split at hcontra
      · obtain ⟨a, _, c, hc⟩ := runBatch_error_exists _ _ _ hcontra
        have := set_step_error_inbounds eng element a.1 a.2 _ c h1 h2 hc
        exact absurd this (by decide)
      · simp only [Except.error.injEq] at hcontra
        exact absurd hcontra (by decide)
    · rw [set_elements_singleton] at hcontra
      split at hcontra
      · cases hcontra
      · obtain ⟨a, _, c, hc⟩ := runBatch_error_exists _ _ _ hcontra
        have := set_step_error_inbounds eng element a v _ c h1 h2 hc
        exact absurd this (by decide)
    · rw [set_elements_cons2] at hcontra
      split at hcontra
      · obtain ⟨a, _, c, hc⟩ := runBatch_error_exists _ _ _ hcontra
        have := set_step_error_inbounds eng element a.1 a.2 _ c h1 h2 hc
        exact absurd this (by decide)
      · simp only [Except.error.injEq] at hcontra
        exact absurd hcontra (by decide)

/-- Witness for C10 at the in-bounds index 5 (`city`). -/
theorem c10_field_index_bounds_witness :
    (∃ v, getSlot (parse_single (fun _ => [("road", "r")]) "a") 5 = .ok v) ∧
    (∃ out n, get_elements (fun _ => [("road", "r")]) [some "a"] 5 =
      (.ok out, n)) := by
  have H := c10_field_index_bounds (fun _ => [("road", "r")]) [some "a"]
    [some "z"] 5 "a"
  exact ⟨H.1.mp ⟨by decide, by decide⟩, H.2.1 (by decide) (by decide)⟩


end Poster
